import Mathlib

/-!
# Verification of the ledger aggregation core of the Finance-app repository

Shallow embedding of the aggregation logic of `src/app.py` (a Streamlit
personal-finance dashboard over a single `transactions` table), together with
proofs of the specification's claims about it.

Modelling conventions:
* Calendar dates handled by pandas (`df['date'].dt.date`, `pd.date_range`,
  `timedelta`) are modelled as integer day numbers: `timedelta(days=k)` is
  `+ k`, `pd.date_range(s, e)` is the integer interval `[s, e]`.  Claims that
  depend on the year/month/day structure of a date (the "this month" window)
  use a separate `YMD` record mirroring Python's `datetime.date`.
* Money amounts (SQLite `REAL`) are modelled as integers in currency minor
  units (paise), so the entry form's `min_value=0.01` is the minor unit `1`.
* A pandas DataFrame of transactions is a `List Txn`; boolean-mask filtering
  is `List.filter`, `groupby(k)['amount'].sum()` is summation over the rows
  whose key equals each distinct key value, and `sort_values` is a sort by
  the chosen column.
-/

/-- The `type` column of the `transactions` table: `"Income"` or `"Expense"`
(the two options of the entry form's `st.selectbox("Type", ...)`). -/
inductive Kind where
  | income
  | expense
deriving DecidableEq, Repr

/-- The fixed `CATEGORIES` list of `src/app.py` line 72. -/
inductive Cat where
  | food
  | travel
  | bills
  | entertainment
  | shopping
  | savings
  | health
  | other
deriving DecidableEq, Repr

/-- One row of the `transactions` table (`src/app.py` lines 56-67):
`type`, `amount`, `reason`, `category`, `where_from`, `date`, `timestamp`.
`date` is a day number, `timestamp` the creation instant (`created_at`).
The `time` column is informational only and not used by any aggregation. -/
structure Txn where
  kind : Kind
  amount : Int
  reason : String
  category : Cat
  whereFrom : String
  date : Int
  timestamp : Int
deriving DecidableEq, Repr

/-- Sum of the `amount` column of a selection of rows. -/
def sumAmounts (ts : List Txn) : Int :=
  (ts.map (fun t => t.amount)).sum

/-- The boolean mask `df['type'] == 'Income'` (`src/app.py` line 97 etc.). -/
def incomeOf (ts : List Txn) : List Txn :=
  ts.filter (fun t => t.kind == Kind.income)

/-- The boolean mask `df['type'] == 'Expense'` (`src/app.py` line 98 etc.). -/
def expenseOf (ts : List Txn) : List Txn :=
  ts.filter (fun t => t.kind == Kind.expense)

/-- `calculate_cashflow` (`src/app.py` lines 96-99): income sum minus expense
sum of a group, each guarded by the group's emptiness check of the source. -/
def calculate_cashflow (g : List Txn) : Int :=
  (if g.isEmpty then 0 else sumAmounts (incomeOf g)) -
    (if g.isEmpty then 0 else sumAmounts (expenseOf g))

/-- The result of the Home page's totals block (`src/app.py` lines 128-130):
`total_income`, `total_expenses`, `balance = total_income - total_expenses`.
The spec calls this operation `totalsByKind`. -/
structure Totals where
  income_total : Int
  expense_total : Int
  net_balance : Int
deriving DecidableEq, Repr

/-- `totalsByKind` (`src/app.py` lines 128-130). -/
def totalsByKind (ts : List Txn) : Totals :=
  { income_total := sumAmounts (incomeOf ts)
    expense_total := sumAmounts (expenseOf ts)
    net_balance := sumAmounts (incomeOf ts) - sumAmounts (expenseOf ts) }

/-- `pd.date_range(s, e)` over day numbers: `[s, s+1, ..., e]`
(empty when `e < s`). -/
def dateRange (s e : Int) : List Int :=
  (List.range (e - s + 1).toNat).map (fun (i : Nat) => s + (i : Int))

/-- The rows of `ts` dated exactly `d`: the group of key `d` of
`groupby(df['date'].dt.date)`. -/
def onDay (ts : List Txn) (d : Int) : List Txn :=
  ts.filter (fun t => t.date == d)

/-- `dailyCashflowSeries` (`src/app.py` lines 150-152):
`groupby(date).apply(calculate_cashflow).reindex(pd.date_range(s, e), fill_value=0)`.
For each day of the range the value is `calculate_cashflow` of that day's
group when the day is a group key, and the `fill_value` 0 otherwise. -/
def dailyCashflowSeries (ts : List Txn) (s e : Int) : List (Int × Int) :=
  (dateRange s e).map (fun d =>
    (d, if (onDay ts d).isEmpty then 0 else calculate_cashflow (onDay ts d)))

/-- The Home page's pre-filter `df[df['date'].dt.date >= today - timedelta(days=7)]`
(`src/app.py` line 149). -/
def last7Days (ts : List Txn) (today : Int) : List Txn :=
  ts.filter (fun t => decide (today - 7 ≤ t.date))

/-- The Home page's 7-entry cashflow series (`src/app.py` lines 149-152):
the reindex window is `pd.date_range(today - timedelta(days=6), today)`. -/
def homeCashflowSeries (ts : List Txn) (today : Int) : List (Int × Int) :=
  dailyCashflowSeries (last7Days ts today) (today - 6) today

/-- The inclusive date-range mask
`(df['date'].dt.date >= s) & (df['date'].dt.date <= e)`
(`src/app.py` line 360, also lines 126, 239, 278). -/
def filterByDateRange (ts : List Txn) (s e : Int) : List Txn :=
  ts.filter (fun t => decide (s ≤ t.date) && decide (t.date ≤ e))

/-- Lowercased character sequence of a string (pandas `case=False` matching
lowercases both sides). -/
def lowerChars (s : String) : List Char :=
  s.toList.map Char.toLower

/-- `q` matches the leading characters of `s`. -/
def leadMatch : List Char → List Char → Bool
  | [], _ => true
  | _ :: _, [] => false
  | a :: as, b :: bs => a == b && leadMatch as bs

/-- `q` occurs as a contiguous substring of `s`. -/
def isSubstrList (q s : List Char) : Bool :=
  (List.range (s.length + 1)).any (fun i => leadMatch q (s.drop i))

/-- The claim's reading of the reason matcher: a literal case-insensitive
substring test.  The source's call `str.contains(search, case=False,
na=False)` (`src/app.py` line 357) leaves `regex=True` at its default, so the
query is a regular expression there; the two agree exactly on queries free of
regex metacharacters (`rxSearch_plain_eq_substr` below). -/
def containsCI (reason q : String) : Bool :=
  isSubstrList (lowerChars q) (lowerChars reason)

/-- The reason filter as the claim words it (literal substring matching),
applied only when the search box is non-empty (`if search:`,
`src/app.py` line 356).  Kept as the claim-side definition, to be compared
with `searchFilterRe`, the one from the source. -/
def searchFilterClaim (q : String) (ts : List Txn) : List Txn :=
  if q = "" then ts else ts.filter (fun t => containsCI t.reason q)

/-- The History page's category filter (`src/app.py` lines 358-359): `none`
models the `"All"` sentinel, which disables the filter. -/
def categoryFilter (c : Option Cat) (ts : List Txn) : List Txn :=
  match c with
  | none => ts
  | some c0 => ts.filter (fun t => t.category == c0)

/-- The three options of the History page's sort selectbox
(`src/app.py` line 363). -/
inductive SortKey where
  | dateNewest
  | amountHighLow
  | amountLowHigh
deriving DecidableEq, Repr

/-- The comparison used by `sort_values` for each sort option
(`src/app.py` lines 364-369): date descending, amount descending, or amount
ascending. -/
def keyLe : SortKey → Txn → Txn → Prop
  | SortKey.dateNewest => fun a b => b.date ≤ a.date
  | SortKey.amountHighLow => fun a b => b.amount ≤ a.amount
  | SortKey.amountLowHigh => fun a b => a.amount ≤ b.amount

instance (k : SortKey) : DecidableRel (keyLe k) := fun a b =>
  match k with
  | SortKey.dateNewest => (inferInstance : Decidable (b.date ≤ a.date))
  | SortKey.amountHighLow => (inferInstance : Decidable (b.amount ≤ a.amount))
  | SortKey.amountLowHigh => (inferInstance : Decidable (a.amount ≤ b.amount))

instance (k : SortKey) : IsTotal Txn (keyLe k) :=
  ⟨fun a b => by cases k <;> dsimp [keyLe] <;> omega⟩

instance (k : SortKey) : IsTrans Txn (keyLe k) :=
  ⟨fun a b c hab hbc => by cases k <;> dsimp [keyLe] at * <;> omega⟩

/-- `filtered_df.sort_values(column, ascending=...)`
(`src/app.py` lines 364-369): a sort by the chosen key.  pandas' default
`kind='quicksort'` leaves the relative order of tied keys unspecified, so the
theorems below assert only sortedness and the multiset of rows — facts every
sort by the key satisfies — never a particular tie order. -/
def sortTxns (k : SortKey) (ts : List Txn) : List Txn :=
  List.insertionSort (keyLe k) ts

/-- The History page pipeline as the claim words it (literal substring
search, then category filter, then inclusive date range, then sort).  Kept as
the claim-side definition, to be compared with `searchAndSortRe`, the one
from the source. -/
def searchAndSortClaim (ts : List Txn) (q : String) (c : Option Cat) (s e : Int)
    (k : SortKey) : List Txn :=
  sortTxns k (filterByDateRange (categoryFilter c (searchFilterClaim q ts)) s e)

/-- One atom of the modelled regular-expression fragment: a literal character
or the `.` wildcard. -/
inductive Rx where
  | lit (c : Char)
  | dot
deriving DecidableEq, Repr

/-- The metacharacters of Python's `re` syntax. -/
def isRxMeta (c : Char) : Bool :=
  c == '.' || c == '^' || c == '$' || c == '*' || c == '+' || c == '?' ||
  c == '\x7b' || c == '\x7d' || c == '[' || c == ']' || c == '\\' ||
  c == '|' || c == '(' || c == ')'

/-- `re.compile` on the fragment of patterns the claims exercise: an ordinary
character compiles to itself, `.` to the wildcard, and `(` raises exactly the
`re.error` Python reports for an unterminated group.  The remaining
metacharacters are outside the modelled fragment and are conservatively
reported as errors; no theorem below evaluates the compiler on them. -/
def rxCompile : List Char → Except String (List Rx)
  | [] => Except.ok []
  | c :: cs =>
    if c == '.' then
      match rxCompile cs with
      | Except.ok p => Except.ok (Rx.dot :: p)
      | Except.error e => Except.error e
    else if c == '(' then Except.error "missing ), unterminated subpattern"
    else if isRxMeta c then Except.error "metacharacter outside the modelled fragment"
    else
      match rxCompile cs with
      | Except.ok p => Except.ok (Rx.lit c :: p)
      | Except.error e => Except.error e

/-- The pattern matches the leading characters of `s`: `.` matches any
character, a literal matches case-insensitively (the `re.IGNORECASE` flag
that `case=False` sets). -/
def rxLeadMatch : List Rx → List Char → Bool
  | [], _ => true
  | _ :: _, [] => false
  | Rx.dot :: p, _ :: s => rxLeadMatch p s
  | Rx.lit c :: p, x :: s => (c.toLower == x.toLower) && rxLeadMatch p s

/-- `re.search`: the pattern matches at some position of the subject. -/
def rxSearch (p : List Rx) (s : List Char) : Bool :=
  (List.range (s.length + 1)).any (fun i => rxLeadMatch p (s.drop i))

/-- The reason filter as the source executes it (`src/app.py` lines 356-357):
`str.contains(search, case=False, na=False)` with pandas' default
`regex=True` compiles the query and runs `re.search` over each reason; an
invalid pattern raises `re.error` instead of filtering. -/
def searchFilterRe (q : String) (ts : List Txn) : Except String (List Txn) :=
  if q = "" then Except.ok ts
  else
    match rxCompile q.toList with
    | Except.error e => Except.error e
    | Except.ok p => Except.ok (ts.filter (fun t => rxSearch p t.reason.toList))

/-- The History page pipeline `searchAndSort` as the source executes it
(`src/app.py` lines 355-369): regex reason search (a raised `re.error`
propagates before any further stage runs), then category filter, then
inclusive date range, then sort by the chosen key. -/
def searchAndSortRe (ts : List Txn) (q : String) (c : Option Cat) (s e : Int)
    (k : SortKey) : Except String (List Txn) :=
  match searchFilterRe q ts with
  | Except.error er => Except.error er
  | Except.ok ts1 =>
    Except.ok (sortTxns k (filterByDateRange (categoryFilter c ts1) s e))

/-- The distinct dates carrying at least one Expense row, in ascending order:
the index of `expenses.groupby(date)['amount'].sum()` (pandas `groupby` sorts
its keys ascending). -/
def expenseDates (ts : List Txn) : List Int :=
  List.insertionSort (fun a b => a ≤ b) (((expenseOf ts).map (fun t => t.date)).dedup)

/-- Summed Expense amount of day `d`:
`month_data[month_data['type'] == 'Expense'].groupby(date)['amount'].sum()[d]`
(`src/app.py` line 298). -/
def expenseOnDay (ts : List Txn) (d : Int) : Int :=
  sumAmounts ((expenseOf ts).filter (fun t => t.date == d))

/-- The grouped expense-by-date series `spend_days` (`src/app.py` line 298):
one `(date, summed amount)` pair per distinct expense date, keys ascending. -/
def spend_days (ts : List Txn) : List (Int × Int) :=
  (expenseDates ts).map (fun d => (d, expenseOnDay ts d))

/-- `Series.idxmax` paired with `Series.max` (`src/app.py` lines 300-301):
a left fold that replaces the running best only on a strictly larger value,
so the first (earliest) index attaining the maximum wins. -/
def idxmaxPick (p : Int × Int) (ps : List (Int × Int)) : Int × Int :=
  ps.foldl (fun best q => if best.2 < q.2 then q else best) p

/-- `highestSpendDay` (`src/app.py` lines 298-302): `none` when the series is
empty (`if not spend_days.empty` guard), otherwise
`(spend_days.idxmax(), spend_days.max())`. -/
def highestSpendDay (ts : List Txn) : Option (Int × Int) :=
  match spend_days ts with
  | [] => none
  | p :: ps => some (idxmaxPick p ps)

/-- The distinct categories carrying at least one Expense row: the index of
`expense_df.groupby('category')['amount'].sum()` (`src/app.py` line 387;
key order is irrelevant to the claims, the spec leaves it to the caller). -/
def catKeys (ts : List Txn) : List Cat :=
  ((expenseOf ts).map (fun t => t.category)).dedup

/-- Summed Expense amount of category `c` within
`expense_df.groupby('category')['amount'].sum()`. -/
def catTotal (ts : List Txn) (c : Cat) : Int :=
  sumAmounts ((expenseOf ts).filter (fun t => t.category == c))

/-- `categoryBreakdown` (`src/app.py` lines 383-388, also 159-161): the sparse
`category -> summed amount` mapping over Expense rows only. -/
def categoryBreakdown (ts : List Txn) : List (Cat × Int) :=
  (catKeys ts).map (fun c => (c, catTotal ts c))

/-- Python's `calendar.isleap(y)` (Gregorian leap-year rule), used by the
stdlib `calendar.monthrange`. -/
def isLeap (y : Int) : Bool :=
  (y % 4 == 0 && y % 100 != 0) || y % 400 == 0

/-- `calendar.monthrange(y, m)[1]` of the stdlib `calendar` module imported at
`src/app.py` line 6: the number of days of month `m` of year `y`. -/
def daysInMonth (y m : Int) : Int :=
  if m == 2 then (if isLeap y then 29 else 28)
  else if m == 4 || m == 6 || m == 9 || m == 11 then 30
  else 31

/-- A calendar date as Python's `datetime.date` holds it. -/
structure YMD where
  year : Int
  month : Int
  day : Int
deriving DecidableEq, Repr

/-- A value `datetime.date` would accept: month in `1..12`, day in
`1..monthrange(y, m)[1]`. -/
def YMD.valid (d : YMD) : Prop :=
  1 ≤ d.month ∧ d.month ≤ 12 ∧ 1 ≤ d.day ∧ d.day ≤ daysInMonth d.year d.month

instance (d : YMD) : Decidable d.valid := by
  unfold YMD.valid
  infer_instance

/-- Python's `datetime.date` ordering: lexicographic on (year, month, day). -/
def ymdLe (a b : YMD) : Prop :=
  a.year < b.year ∨ (a.year = b.year ∧
    (a.month < b.month ∨ (a.month = b.month ∧ a.day ≤ b.day)))

instance (a b : YMD) : Decidable (ymdLe a b) := by
  unfold ymdLe
  infer_instance

/-- `date(y, m, d) - timedelta(days=1)` expressed on the calendar fields. -/
def prevDay (d : YMD) : YMD :=
  if 1 < d.day then { d with day := d.day - 1 }
  else if 1 < d.month then ⟨d.year, d.month - 1, daysInMonth d.year (d.month - 1)⟩
  else ⟨d.year - 1, 12, 31⟩

/-- `this_month_start = today.replace(day=1)` (`src/app.py` line 124, also
`month_start` at line 274). -/
def this_month_start (today : YMD) : YMD :=
  { today with day := 1 }

/-- The Home page's month-end expression (`src/app.py` line 125):
`date(today.year, today.month % 12 + 1, 1) - timedelta(days=1)` when
`today.month < 12`, else `date(today.year + 1, 1, 1) - timedelta(days=1)`. -/
def this_month_end (today : YMD) : YMD :=
  if today.month < 12 then prevDay ⟨today.year, today.month % 12 + 1, 1⟩
  else prevDay ⟨today.year + 1, 1, 1⟩

/-- The Monthly Analysis page's month end (`src/app.py` lines 275-276):
`today.replace(day=calendar.monthrange(today.year, today.month)[1])`, as it
evaluates when the name `calendar` still denotes the stdlib module. -/
def month_end (today : YMD) : YMD :=
  ⟨today.year, today.month, daysInMonth today.year today.month⟩

/-- The ThisMonth window mask over occurred dates
(`src/app.py` line 126): `(date >= this_month_start) & (date <= this_month_end)`.
Only the `occurred_date` of a row decides membership, so the filter is
modelled on the list of occurred dates. -/
def filterByThisMonth (ds : List YMD) (today : YMD) : List YMD :=
  ds.filter (fun d => decide (ymdLe (this_month_start today) d) &&
    decide (ymdLe d (this_month_end today)))

/-- The entry form's amount floor (`src/app.py` line 172):
`st.number_input("Amount", min_value=0.01)` — `0.01` currency units is `1`
minor unit. -/
def formMinAmount : Int := 1

/-- `add_transaction` (`src/app.py` lines 78-85): `INSERT` of one row into the
`transactions` table, here prepending to the snapshot list (`get_transactions`
reads rows back ordered by `timestamp DESC`). -/
def add_transaction (t : Txn) (ledger : List Txn) : List Txn :=
  t :: ledger

/-- The ledgers reachable through the Add Transaction form: starting from the
empty table, each insert comes from a form submission, whose amount widget
enforces `min_value=0.01` (`src/app.py` lines 170-185). -/
inductive ReachableLedger : List Txn → Prop where
  | empty : ReachableLedger []
  | add (t : Txn) (L : List Txn) :
      formMinAmount ≤ t.amount → ReachableLedger L →
      ReachableLedger (add_transaction t L)

/-! ## Sample ledger used by the witness theorems (Scenario A of the spec,
plus a tied pair of expense days for the tie-break scenario). -/

/-- Income 1000 on day 1 (Scenario A). -/
def demoIncome : Txn := ⟨Kind.income, 1000, "Salary", Cat.other, "Employer", 1, 0⟩

/-- Expense 200 on day 1 (Scenario A). -/
def demoExpense1 : Txn := ⟨Kind.expense, 200, "Lunch at cafe", Cat.food, "Cafe", 1, 1⟩

/-- Expense 300 on day 2 (Scenario A). -/
def demoExpense2 : Txn := ⟨Kind.expense, 300, "Groceries", Cat.food, "Store", 2, 2⟩

/-- Scenario A's ledger. -/
def demoLedger : List Txn := [demoIncome, demoExpense1, demoExpense2]

/-- A transaction outside the `[1, 2]` window, for the insensitivity witness. -/
def demoOutside : Txn := ⟨Kind.expense, 999, "Rent", Cat.bills, "Landlord", 10, 3⟩

/-- A transaction dated exactly 7 days before day 10. -/
def demoWeekOld : Txn := ⟨Kind.expense, 50, "Snacks", Cat.food, "Shop", 3, 4⟩

/-- Scenario D's ledger: expense days 3 and 5 tied at 500. -/
def demoTie : List Txn :=
  [⟨Kind.expense, 500, "Books", Cat.shopping, "Shop", 5, 0⟩,
   ⟨Kind.expense, 500, "Court fee", Cat.other, "Office", 3, 1⟩]

/-! ## Helper lemmas -/

theorem mem_dateRange {s e d : Int} : d ∈ dateRange s e ↔ s ≤ d ∧ d ≤ e := by
  unfold dateRange
  rw [List.mem_map]
  constructor
  · rintro ⟨i, hi, rfl⟩
    rw [List.mem_range] at hi
    omega
  · rintro ⟨h1, h2⟩
    exact ⟨(d - s).toNat, List.mem_range.2 (by omega), by omega⟩

theorem onDay_sub_filterByDateRange (ts : List Txn) (s e d : Int) (h1 : s ≤ d)
    (h2 : d ≤ e) : onDay (filterByDateRange ts s e) d = onDay ts d := by
  unfold onDay filterByDateRange
  rw [List.filter_filter]
  apply List.filter_congr
  intro t _
  by_cases hd : t.date = d
  · simp [hd, h1, h2]
  · simp [hd]

theorem dailyCashflowSeries_congr (ts1 ts2 : List Txn) (s e : Int)
    (h : ∀ d, s ≤ d → d ≤ e → onDay ts1 d = onDay ts2 d) :
    dailyCashflowSeries ts1 s e = dailyCashflowSeries ts2 s e := by
  unfold dailyCashflowSeries
  apply List.map_congr_left
  intro d hd
  obtain ⟨h1, h2⟩ := mem_dateRange.1 hd
  rw [h d h1 h2]

/-! ## Claim theorems -/

/-- C1: over any range `[s, e]` with `s ≤ e`, `dailyCashflowSeries` returns
exactly `(e - s) + 1` entries, the `i`-th entry carrying date `s + i` (hence
ascending order, no duplicates, no gaps, one entry per calendar day), each
day's net amount being the income sum minus the expense sum of that day's
transactions, and a day with no matching transaction appearing with net 0. -/
theorem dailyCashflowSeries_spec (ts : List Txn) (s e : Int) (h : s ≤ e) :
    (dailyCashflowSeries ts s e).length = (e - s).toNat + 1 ∧
    (∀ (i : Nat) (hi : i < (dailyCashflowSeries ts s e).length),
      ((dailyCashflowSeries ts s e).get ⟨i, hi⟩).1 = s + i) ∧
    (∀ p ∈ dailyCashflowSeries ts s e,
      p.2 = sumAmounts (incomeOf (onDay ts p.1)) - sumAmounts (expenseOf (onDay ts p.1)) ∧
      (onDay ts p.1 = [] → p.2 = 0)) := by
  refine ⟨?_, ?_, ?_⟩
  · simp only [dailyCashflowSeries, dateRange, List.length_map, List.length_range]
    omega
  · intro i hi
    simp only [dailyCashflowSeries, dateRange, List.get_eq_getElem, List.getElem_map,
      List.getElem_range]
  · intro p hp
    rw [dailyCashflowSeries, List.mem_map] at hp
    obtain ⟨d, _, rfl⟩ := hp
    constructor
    · by_cases hE : (onDay ts d).isEmpty
      · rw [List.isEmpty_iff] at hE
        simp [hE, sumAmounts, incomeOf, expenseOf]
      · simp only [hE, if_false, calculate_cashflow]
        rw [List.isEmpty_iff] at hE
        simp [hE]
    · intro h0
      simp [h0]

/-- Closed instance of C1 on Scenario A's ledger over the range `[1, 3]`. -/
theorem dailyCashflowSeries_spec_witness :
    (dailyCashflowSeries demoLedger 1 3).length = ((3 : Int) - 1).toNat + 1 :=
  (dailyCashflowSeries_spec demoLedger 1 3 (by decide)).1

/-- C2: `totalsByKind` sums amounts by kind, its net balance is the income
total minus the expense total, and the empty ledger yields all-zero totals. -/
theorem totalsByKind_spec (ts : List Txn) :
    (totalsByKind ts).income_total =
      ((ts.filter (fun t => t.kind == Kind.income)).map (fun t => t.amount)).sum ∧
    (totalsByKind ts).expense_total =
      ((ts.filter (fun t => t.kind == Kind.expense)).map (fun t => t.amount)).sum ∧
    (totalsByKind ts).net_balance =
      (totalsByKind ts).income_total - (totalsByKind ts).expense_total ∧
    totalsByKind [] = ⟨0, 0, 0⟩ :=
  ⟨rfl, rfl, rfl, rfl⟩

/-- C7: a degenerate range with `e < s` makes the range filter empty, and the
daily series over it empty as well, with no failure. -/
theorem degenerateRange_empty (ts : List Txn) (s e : Int) (h : e < s) :
    filterByDateRange ts s e = [] ∧ dailyCashflowSeries ts s e = [] := by
  constructor
  · rw [filterByDateRange, List.filter_eq_nil_iff]
    intro t _
    simp only [Bool.and_eq_true, decide_eq_true_eq, not_and]
    omega
  · rw [dailyCashflowSeries, dateRange]
    have h0 : (e - s + 1).toNat = 0 := by omega
    rw [h0]
    rfl

/-- Closed instance of C7: the range `[5, 2]` on Scenario A's ledger. -/
theorem degenerateRange_empty_witness :
    filterByDateRange demoLedger 5 2 = [] ∧ dailyCashflowSeries demoLedger 5 2 = [] :=
  degenerateRange_empty demoLedger 5 2 (by decide)

/-- C10: the daily cashflow series is insensitive to transactions outside its
date window — ledgers agreeing inside `[s, e]` produce identical series — and
on the Home page a transaction dated exactly `today - 7`, although kept by the
`>= today - timedelta(days=7)` pre-filter, never affects the 7-entry series,
whose reindex window starts at `today - 6`. -/
theorem cashflow_window_insensitive :
    (∀ (ts1 ts2 : List Txn) (s e : Int),
      filterByDateRange ts1 s e = filterByDateRange ts2 s e →
      dailyCashflowSeries ts1 s e = dailyCashflowSeries ts2 s e) ∧
    (∀ (ts : List Txn) (today : Int) (t0 : Txn), t0.date = today - 7 →
      t0 ∈ last7Days (t0 :: ts) today ∧
      homeCashflowSeries (t0 :: ts) today = homeCashflowSeries ts today) := by
  constructor
  · intro ts1 ts2 s e hf
    apply dailyCashflowSeries_congr
    intro d h1 h2
    rw [← onDay_sub_filterByDateRange ts1 s e d h1 h2, hf,
      onDay_sub_filterByDateRange ts2 s e d h1 h2]
  · intro ts today t0 h0
    have hmem : t0 ∈ last7Days (t0 :: ts) today := by
      rw [last7Days, List.mem_filter]
      exact ⟨List.mem_cons_self t0 ts, by rw [h0]; simp⟩
    refine ⟨hmem, ?_⟩
    have hcons : last7Days (t0 :: ts) today = t0 :: last7Days ts today := by
      rw [last7Days, last7Days, List.filter_cons_of_pos]
      rw [h0]
      simp
    rw [homeCashflowSeries, homeCashflowSeries, hcons]
    apply dailyCashflowSeries_congr
    intro d h1 h2
    rw [onDay, onDay, List.filter_cons_of_neg]
    simp only [beq_iff_eq]
    omega

/-- Closed instance of C10: adding a day-10 transaction does not change the
series over `[1, 2]`, and a transaction dated `10 - 7 = 3` does not change the
Home series anchored at day 10. -/
theorem cashflow_window_insensitive_witness :
    dailyCashflowSeries demoLedger 1 2 =
      dailyCashflowSeries (demoOutside :: demoLedger) 1 2 ∧
    homeCashflowSeries (demoWeekOld :: demoLedger) 10 = homeCashflowSeries demoLedger 10 :=
  ⟨cashflow_window_insensitive.1 demoLedger (demoOutside :: demoLedger) 1 2 (by decide),
   (cashflow_window_insensitive.2 demoLedger 10 demoWeekOld (by decide)).2⟩

/-- C9: every ledger reachable through the Add Transaction form satisfies
`amount ≥ 0.01 > 0` on all of its records (the form's `min_value` floor), so
every record any aggregation consumes is non-negative and in particular the
by-kind totals are non-negative. -/
theorem reachable_amount_nonneg (L : List Txn) (h : ReachableLedger L) :
    (∀ t ∈ L, formMinAmount ≤ t.amount) ∧
    (∀ t ∈ L, 0 ≤ t.amount) ∧
    0 ≤ (totalsByKind L).income_total ∧
    0 ≤ (totalsByKind L).expense_total := by
  have hmin : ∀ t ∈ L, formMinAmount ≤ t.amount := by
    induction h with
    | empty => intro t ht; cases ht
    | add t L hamt _ ih =>
      intro u hu
      rcases List.mem_cons.1 hu with rfl | hu'
      · exact hamt
      · exact ih u hu'
  have hnn : ∀ t ∈ L, 0 ≤ t.amount := by
    intro t ht
    have := hmin t ht
    rw [formMinAmount] at this
    omega
  refine ⟨hmin, hnn, ?_, ?_⟩
  · apply List.sum_nonneg
    intro x hx
    rw [List.mem_map] at hx
    obtain ⟨t, ht, rfl⟩ := hx
    exact hnn t (List.mem_filter.1 ht).1
  · apply List.sum_nonneg
    intro x hx
    rw [List.mem_map] at hx
    obtain ⟨t, ht, rfl⟩ := hx
    exact hnn t (List.mem_filter.1 ht).1

/-- Closed instance of C9 on a ledger built by one form submission. -/
theorem reachable_amount_nonneg_witness : 0 ≤ demoExpense1.amount :=
  (reachable_amount_nonneg [demoExpense1]
    (ReachableLedger.add demoExpense1 [] (by decide) ReachableLedger.empty)).2.1
    demoExpense1 (List.mem_cons_self demoExpense1 [])

theorem sum_map_filter_split {α : Type} (p : α → Bool) (g : α → Int) (l : List α) :
    (l.map g).sum = ((l.filter p).map g).sum +
      ((l.filter (fun x => !(p x))).map g).sum := by
  induction l with
  | nil => rfl
  | cons a l ih =>
    by_cases ha : p a
    · simp [List.filter_cons, ha, ih]
      omega
    · have ha' : p a = false := by simpa using ha
      simp [List.filter_cons, ha', ih]
      omega

theorem sum_partition_by_key {α κ : Type} [DecidableEq κ] (f : α → κ) (g : α → Int) :
    ∀ (ks : List κ) (l : List α), ks.Nodup → (∀ x ∈ l, f x ∈ ks) →
      (ks.map (fun k => ((l.filter (fun x => f x == k)).map g).sum)).sum =
        (l.map g).sum := by
  intro ks
  induction ks with
  | nil =>
    intro l _ hcov
    cases l with
    | nil => rfl
    | cons a l => exact absurd (hcov a (List.mem_cons_self a l)) (List.not_mem_nil _)
  | cons k ks ih =>
    intro l hnd hcov
    have hk : k ∉ ks := (List.nodup_cons.1 hnd).1
    have hnd' : ks.Nodup := (List.nodup_cons.1 hnd).2
    have hcov2 : ∀ x ∈ l.filter (fun x => !(f x == k)), f x ∈ ks := by
      intro x hx
      rw [List.mem_filter] at hx
      rcases List.mem_cons.1 (hcov x hx.1) with h | h
      · exfalso
        have hx2 := hx.2
        rw [h] at hx2
        simp at hx2
      · exact h
    have hfilters : ∀ k' ∈ ks,
        (l.filter (fun x => !(f x == k))).filter (fun x => f x == k') =
          l.filter (fun x => f x == k') := by
      intro k' hk'
      have hkk : k' ≠ k := fun hc => hk (hc ▸ hk')
      rw [List.filter_filter]
      apply List.filter_congr
      intro x _
      by_cases hx : f x = k'
      · simp [hx, hkk]
      · simp [hx]
    have hmap2 : ks.map (fun k' => ((l.filter (fun x => f x == k')).map g).sum)
        = ks.map (fun k' =>
          (((l.filter (fun x => !(f x == k))).filter (fun x => f x == k')).map g).sum) :=
      List.map_congr_left (fun k' hk' => by rw [hfilters k' hk'])
    rw [List.map_cons, List.sum_cons, hmap2, ih _ hnd' hcov2,
      sum_map_filter_split (fun x => f x == k) g l]

/-- C6: `categoryBreakdown` is sparse — every listed category carries at
least one Expense transaction and its value is that category's expense sum —
and the values of the breakdown add up to the total of all Expense amounts. -/
theorem categoryBreakdown_spec (ts : List Txn) :
    (∀ c a, (c, a) ∈ categoryBreakdown ts →
      a = catTotal ts c ∧ ∃ t ∈ ts, t.kind = Kind.expense ∧ t.category = c) ∧
    ((categoryBreakdown ts).map (fun p => p.2)).sum = sumAmounts (expenseOf ts) := by
  constructor
  · intro c a hca
    rw [categoryBreakdown, List.mem_map] at hca
    obtain ⟨c0, hc0, heq⟩ := hca
    have hc : c0 = c := congrArg Prod.fst heq
    have hval : catTotal ts c0 = a := congrArg Prod.snd heq
    subst hc
    refine ⟨hval.symm, ?_⟩
    rw [catKeys, List.mem_dedup, List.mem_map] at hc0
    obtain ⟨t, ht, hcat⟩ := hc0
    rw [expenseOf, List.mem_filter] at ht
    exact ⟨t, ht.1, by simpa using ht.2, hcat⟩
  · rw [categoryBreakdown, List.map_map]
    have hmap : ((fun p : Cat × Int => p.2) ∘ fun c => (c, catTotal ts c)) =
        fun c => catTotal ts c := rfl
    rw [hmap]
    have hpart := sum_partition_by_key (fun t : Txn => t.category) (fun t => t.amount)
      (catKeys ts) (expenseOf ts) (List.nodup_dedup _)
      (fun x hx => List.mem_dedup.2 (List.mem_map_of_mem _ hx))
    simpa [catTotal, sumAmounts] using hpart

/-- Closed instance of C6: the Food entry of Scenario A's breakdown equals the
Food expense sum. -/
theorem categoryBreakdown_spec_witness : (500 : Int) = catTotal demoLedger Cat.food :=
  ((categoryBreakdown_spec demoLedger).1 Cat.food 500 (by decide)).1

theorem idxmaxPick_cons (p r : Int × Int) (rs : List (Int × Int)) :
    idxmaxPick p (r :: rs) = idxmaxPick (if p.2 < r.2 then r else p) rs := rfl

theorem idxmaxPick_mem (ps : List (Int × Int)) : ∀ p, idxmaxPick p ps ∈ p :: ps := by
  induction ps with
  | nil => intro p; simp [idxmaxPick]
  | cons r rs ih =>
    intro p
    rw [idxmaxPick_cons]
    have h := ih (if p.2 < r.2 then r else p)
    rcases List.mem_cons.1 h with h1 | h1
    · rw [h1]
      by_cases hc : p.2 < r.2 <;> simp [hc]
    · exact List.mem_cons_of_mem _ (List.mem_cons_of_mem _ h1)

theorem idxmaxPick_le (ps : List (Int × Int)) :
    ∀ p, ∀ q ∈ p :: ps, q.2 ≤ (idxmaxPick p ps).2 := by
  induction ps with
  | nil =>
    intro p q hq
    rw [List.mem_singleton] at hq
    rw [hq]
    exact le_refl _
  | cons r rs ih =>
    intro p q hq
    rw [idxmaxPick_cons]
    by_cases hc : p.2 < r.2
    · rw [if_pos hc]
      rcases List.mem_cons.1 hq with rfl | hq1
      · exact le_trans (le_of_lt hc) (ih r r (List.mem_cons_self r rs))
      · exact ih r q hq1
    · rw [if_neg hc]
      rcases List.mem_cons.1 hq with rfl | hq1
      · exact ih q q (List.mem_cons_self q rs)
      · rcases List.mem_cons.1 hq1 with rfl | hq2
        · exact le_trans (by omega) (ih p p (List.mem_cons_self p rs))
        · exact ih p q (List.mem_cons_of_mem p hq2)

theorem idxmaxPick_eq_or_lt (ps : List (Int × Int)) :
    ∀ p, idxmaxPick p ps = p ∨ p.2 < (idxmaxPick p ps).2 := by
  induction ps with
  | nil => intro p; exact Or.inl rfl
  | cons r rs ih =>
    intro p
    rw [idxmaxPick_cons]
    by_cases hc : p.2 < r.2
    · rw [if_pos hc]
      right
      have h := idxmaxPick_le rs r r (List.mem_cons_self r rs)
      omega
    · rw [if_neg hc]
      exact ih p

theorem idxmaxPick_earliest (ps : List (Int × Int)) :
    ∀ p, (p :: ps).Pairwise (fun a b => a.1 < b.1) →
      ∀ q ∈ p :: ps, q.2 = (idxmaxPick p ps).2 → (idxmaxPick p ps).1 ≤ q.1 := by
  induction ps with
  | nil =>
    intro p _ q hq _
    rw [List.mem_singleton] at hq
    rw [hq]
    exact le_refl _
  | cons r rs ih =>
    intro p hpw q hq hq2
    rw [idxmaxPick_cons] at hq2 ⊢
    by_cases hc : p.2 < r.2
    · rw [if_pos hc] at hq2 ⊢
      rcases List.mem_cons.1 hq with rfl | hq1
      · have hr := idxmaxPick_le rs r r (List.mem_cons_self r rs)
        omega
      · exact ih r (List.pairwise_cons.1 hpw).2 q hq1 hq2
    · rw [if_neg hc] at hq2 ⊢
      have hpw' : (p :: rs).Pairwise (fun a b : Int × Int => a.1 < b.1) := by
        rcases List.pairwise_cons.1 hpw with ⟨hpall, htail⟩
        rcases List.pairwise_cons.1 htail with ⟨_, hrs⟩
        exact List.pairwise_cons.2
          ⟨fun b hb => hpall b (List.mem_cons_of_mem r hb), hrs⟩
      rcases List.mem_cons.1 hq with rfl | hq1
      · exact ih q hpw' q (List.mem_cons_self q rs) hq2
      · rcases List.mem_cons.1 hq1 with rfl | hq2m
        · rcases idxmaxPick_eq_or_lt rs p with he | hlt
          · rw [he] at hq2 ⊢
            have hlt1 : p.1 < q.1 :=
              (List.pairwise_cons.1 hpw).1 q (List.mem_cons_self q rs)
            omega
          · omega
        · exact ih p hpw' q (List.mem_cons_of_mem p hq2m) hq2

theorem mem_expenseDates {ts : List Txn} {d : Int} :
    d ∈ expenseDates ts ↔ ∃ t ∈ ts, t.kind = Kind.expense ∧ t.date = d := by
  rw [expenseDates, List.mem_insertionSort, List.mem_dedup, List.mem_map]
  constructor
  · rintro ⟨t, ht, rfl⟩
    rw [expenseOf, List.mem_filter] at ht
    exact ⟨t, ht.1, by simpa using ht.2, rfl⟩
  · rintro ⟨t, ht, hk, hd⟩
    refine ⟨t, ?_, hd⟩
    rw [expenseOf, List.mem_filter]
    exact ⟨ht, by simp [hk]⟩

theorem expenseDates_sorted (ts : List Txn) :
    List.Sorted (fun a b : Int => a ≤ b) (expenseDates ts) :=
  List.sorted_insertionSort _ _

theorem expenseDates_nodup (ts : List Txn) : (expenseDates ts).Nodup :=
  (List.perm_insertionSort _ _).nodup_iff.2 (List.nodup_dedup _)

theorem spend_days_pairwise (ts : List Txn) :
    (spend_days ts).Pairwise (fun a b => a.1 < b.1) := by
  rw [spend_days, List.pairwise_map]
  exact (expenseDates_sorted ts).lt_of_le (expenseDates_nodup ts)

/-- C3: with at least one Expense transaction, `highestSpendDay` returns the
date with the maximal summed expense amount together with that sum, breaking
ties toward the earliest date; with no Expense transaction it returns the
`none` sentinel. -/
theorem highestSpendDay_spec (ts : List Txn) :
    (expenseOf ts = [] → highestSpendDay ts = none) ∧
    (expenseOf ts ≠ [] →
      ∃ d, highestSpendDay ts = some (d, expenseOnDay ts d) ∧
        (∃ t ∈ ts, t.kind = Kind.expense ∧ t.date = d) ∧
        (∀ d', (∃ t ∈ ts, t.kind = Kind.expense ∧ t.date = d') →
          expenseOnDay ts d' ≤ expenseOnDay ts d ∧
          (expenseOnDay ts d' = expenseOnDay ts d → d ≤ d'))) := by
  constructor
  · intro h
    have hempty : spend_days ts = [] := by
      simp [spend_days, expenseDates, h]
    unfold highestSpendDay
    rw [hempty]
  · intro h
    obtain ⟨t0, ht0⟩ : ∃ t, t ∈ expenseOf ts := by
      cases hE : expenseOf ts with
      | nil => exact absurd hE h
      | cons a l => exact ⟨a, hE ▸ List.mem_cons_self a l⟩
    have ht0' : t0 ∈ ts ∧ t0.kind = Kind.expense := by
      rw [expenseOf, List.mem_filter] at ht0
      exact ⟨ht0.1, by simpa using ht0.2⟩
    rcases hSD : spend_days ts with _ | ⟨p, ps⟩
    · exfalso
      have hd0 : t0.date ∈ expenseDates ts :=
        mem_expenseDates.2 ⟨t0, ht0'.1, ht0'.2, rfl⟩
      have hmem0 : (t0.date, expenseOnDay ts t0.date) ∈ spend_days ts := by
        rw [spend_days]
        exact List.mem_map_of_mem _ hd0
      rw [hSD] at hmem0
      exact List.not_mem_nil _ hmem0
    · have hmem : idxmaxPick p ps ∈ spend_days ts := by
        rw [hSD]
        exact idxmaxPick_mem ps p
      obtain ⟨d, hdk, hdm⟩ :
          ∃ d, d ∈ expenseDates ts ∧ idxmaxPick p ps = (d, expenseOnDay ts d) := by
        rw [spend_days, List.mem_map] at hmem
        obtain ⟨d, hd, hmd⟩ := hmem
        exact ⟨d, hd, hmd.symm⟩
      have hval : highestSpendDay ts = some (idxmaxPick p ps) := by
        unfold highestSpendDay
        rw [hSD]
      refine ⟨d, by rw [hval, hdm], mem_expenseDates.1 hdk, ?_⟩
      intro d' hex
      have hd'k : d' ∈ expenseDates ts := mem_expenseDates.2 hex
      have hq : (d', expenseOnDay ts d') ∈ p :: ps := by
        rw [← hSD, spend_days]
        exact List.mem_map_of_mem _ hd'k
      constructor
      · have hle := idxmaxPick_le ps p (d', expenseOnDay ts d') hq
        simpa [hdm] using hle
      · intro heq
        have hpw : (p :: ps).Pairwise (fun a b : Int × Int => a.1 < b.1) := by
          have hsp := spend_days_pairwise ts
          rw [hSD] at hsp
          exact hsp
        have hearly := idxmaxPick_earliest ps p hpw (d', expenseOnDay ts d') hq
          (by simp [hdm, heq])
        simpa [hdm] using hearly

/-- Closed instance of C3: the empty ledger yields the `none` sentinel, and
Scenario D's tied ledger yields a defined result. -/
theorem highestSpendDay_spec_witness :
    highestSpendDay [] = none ∧ (highestSpendDay demoTie).isSome = true := by
  constructor
  · exact (highestSpendDay_spec []).1 rfl
  · obtain ⟨d, hd, -, -⟩ := (highestSpendDay_spec demoTie).2 (by decide)
    rw [hd]
    rfl

theorem mem_sortPipeline {ts1 : List Txn} {c : Option Cat} {s e : Int}
    {k : SortKey} {t : Txn} :
    t ∈ sortTxns k (filterByDateRange (categoryFilter c ts1) s e) ↔
      t ∈ ts1 ∧ (∀ c0, c = some c0 → t.category = c0) ∧
        s ≤ t.date ∧ t.date ≤ e := by
  cases c <;>
    simp [sortTxns, List.mem_insertionSort, filterByDateRange, categoryFilter,
      List.mem_filter, and_assoc, beq_iff_eq] <;>
    tauto

theorem rxCompile_plain (cs : List Char) (h : ∀ ch ∈ cs, isRxMeta ch = false) :
    rxCompile cs = Except.ok (cs.map Rx.lit) := by
  induction cs with
  | nil => rfl
  | cons c cs ih =>
    have hc : isRxMeta c = false := h c (List.mem_cons_self c cs)
    have hdot : (c == '.') = false := by
      by_cases hcd : c = '.'
      · rw [hcd] at hc
        exact absurd hc (by decide)
      · simpa using hcd
    have hpar : (c == '(') = false := by
      by_cases hcp : c = '('
      · rw [hcp] at hc
        exact absurd hc (by decide)
      · simpa using hcp
    rw [rxCompile, if_neg (by simp [hdot]), if_neg (by simp [hpar]),
      if_neg (by simp [hc]), ih (fun ch hch => h ch (List.mem_cons_of_mem c hch))]
    rfl

theorem rxLeadMatch_lits (qs : List Char) :
    ∀ s : List Char, rxLeadMatch (qs.map Rx.lit) s =
      leadMatch (qs.map Char.toLower) (s.map Char.toLower) := by
  induction qs with
  | nil => intro s; rfl
  | cons c qs ih =>
    intro s
    cases s with
    | nil => rfl
    | cons x s => simp [rxLeadMatch, leadMatch, ih]

theorem rxSearch_plain_eq_substr (qs s : List Char) :
    rxSearch (qs.map Rx.lit) s =
      isSubstrList (qs.map Char.toLower) (s.map Char.toLower) := by
  rw [rxSearch, isSubstrList, List.length_map, Bool.eq_iff_iff,
    List.any_eq_true, List.any_eq_true]
  constructor
  · rintro ⟨i, hi, hm⟩
    refine ⟨i, hi, ?_⟩
    rw [← List.map_drop, ← rxLeadMatch_lits]
    exact hm
  · rintro ⟨i, hi, hm⟩
    refine ⟨i, hi, ?_⟩
    rw [rxLeadMatch_lits, List.map_drop]
    exact hm

/-- C4 counterexample: the program does not apply a case-insensitive
substring match on reason.  At query `"."` the source's pipeline (pandas
default `regex=True`) keeps all three rows of Scenario A's ledger, since `.`
matches any character of a non-empty reason, while the claim's
literal-substring pipeline keeps none of them (no reason contains a dot);
and at query `"("` the source raises `re.error` where the claim's pipeline
would filter. -/
theorem searchAndSort_substring_counterexample :
    searchAndSortRe demoLedger "." none 1 2 SortKey.dateNewest =
      Except.ok [demoExpense2, demoIncome, demoExpense1] ∧
    searchAndSortClaim demoLedger "." none 1 2 SortKey.dateNewest = [] ∧
    [demoExpense2, demoIncome, demoExpense1] ≠ ([] : List Txn) ∧
    searchAndSortRe demoLedger "(" none 1 2 SortKey.dateNewest =
      Except.error "missing ), unterminated subpattern" :=
  ⟨rfl, rfl, by decide, rfl⟩

/-- C4 (amended): `searchAndSort` interprets the text query as a
case-insensitive regular expression searched within reason (pandas
`str.contains` defaults to `regex=True`): an invalid pattern such as `"("`
propagates as an error before anything is filtered; an empty query skips the
search stage, passing every row; on a compiled pattern the pipeline keeps
exactly the rows passing the regex search, the exact category filter (unless
the `"All"` sentinel) and the inclusive date-range filter, and sorts the
survivors by the chosen key among date descending, amount ascending, amount
descending, tie order left to the sort algorithm — sorting never changes
which rows pass the filters; and a query free of regex metacharacters
behaves exactly as the claim's case-insensitive substring match. -/
theorem searchAndSortRe_spec (ts : List Txn) (q : String) (c : Option Cat)
    (s e : Int) (k : SortKey) :
    (∀ er, q ≠ "" → rxCompile q.toList = Except.error er →
      searchAndSortRe ts q c s e k = Except.error er) ∧
    (q = "" → searchAndSortRe ts q c s e k =
      Except.ok (sortTxns k (filterByDateRange (categoryFilter c ts) s e))) ∧
    (∀ p, q ≠ "" → rxCompile q.toList = Except.ok p →
      ∃ out, searchAndSortRe ts q c s e k = Except.ok out ∧
        List.Sorted (keyLe k) out ∧
        out.Perm (filterByDateRange (categoryFilter c
          (ts.filter (fun t => rxSearch p t.reason.toList))) s e) ∧
        (∀ t, t ∈ out ↔ t ∈ ts ∧ rxSearch p t.reason.toList = true ∧
          (∀ c0, c = some c0 → t.category = c0) ∧ s ≤ t.date ∧ t.date ≤ e)) ∧
    (q.toList.all (fun ch => !(isRxMeta ch)) = true →
      rxCompile q.toList = Except.ok (q.toList.map Rx.lit) ∧
      ∀ r : String, rxSearch (q.toList.map Rx.lit) r.toList = containsCI r q) := by
  refine ⟨?_, ?_, ?_, ?_⟩
  · intro er hq herr
    unfold searchAndSortRe searchFilterRe
    rw [if_neg hq, herr]
  · intro hq
    unfold searchAndSortRe searchFilterRe
    rw [if_pos hq]
  · intro p hq hok
    refine ⟨sortTxns k (filterByDateRange (categoryFilter c
      (ts.filter (fun t => rxSearch p t.reason.toList))) s e), ?_, ?_, ?_, ?_⟩
    · unfold searchAndSortRe searchFilterRe
      rw [if_neg hq, hok]
    · exact List.sorted_insertionSort _ _
    · exact List.perm_insertionSort _ _
    · intro t
      rw [mem_sortPipeline]
      simp [List.mem_filter, and_assoc]
  · intro hall
    have hplain : ∀ ch ∈ q.toList, isRxMeta ch = false := by
      intro ch hch
      simpa using List.all_eq_true.1 hall ch hch
    refine ⟨rxCompile_plain q.toList hplain, ?_⟩
    intro r
    rw [rxSearch_plain_eq_substr]
    rfl

/-- Closed instance of C4 as amended: the invalid pattern `"("` propagates as
`re.error`, and the metacharacter-free query `"cafe"` compiles to its literal
pattern, whose search is the substring reading. -/
theorem searchAndSortRe_spec_witness :
    searchAndSortRe demoLedger "(" none 1 2 SortKey.dateNewest =
      Except.error "missing ), unterminated subpattern" ∧
    rxCompile "cafe".toList = Except.ok ("cafe".toList.map Rx.lit) :=
  ⟨(searchAndSortRe_spec demoLedger "(" none 1 2 SortKey.dateNewest).1 _
      (by decide) rfl,
    ((searchAndSortRe_spec demoLedger "cafe" none 1 2 SortKey.dateNewest).2.2.2
      (by decide)).1⟩

/-- C5: for a valid `today`, the Home page's month-end expression agrees with
the calendar-rule month end `today.replace(day=monthrange(y, m)[1])`, and the
ThisMonth mask selects exactly the valid dates sharing `today`'s year and
month — i.e. everything from the 1st through the last calendar day of the
month, leap-year aware by the calendar rules rather than a fixed table. -/
theorem this_month_window_spec (today : YMD) (h : today.valid) :
    this_month_end today = month_end today ∧
    (∀ (ds : List YMD) (d : YMD), d.valid →
      (d ∈ filterByThisMonth ds today ↔
        d ∈ ds ∧ d.year = today.year ∧ d.month = today.month)) := by
  obtain ⟨ty, tm, td⟩ := today
  obtain ⟨hm1, hm2, hd1, hd2⟩ := h
  dsimp only at hm1 hm2 hd1 hd2
  have hend : this_month_end ⟨ty, tm, td⟩ = month_end ⟨ty, tm, td⟩ := by
    rw [this_month_end, month_end]
    dsimp only
    by_cases hc : tm < 12
    · rw [if_pos hc]
      have hmod : tm % 12 = tm := by omega
      rw [hmod, prevDay]
      dsimp only
      rw [if_neg (by omega), if_pos (by omega)]
      have harr : tm + 1 - 1 = tm := by omega
      rw [harr]
    · rw [if_neg hc]
      have hm12 : tm = 12 := by omega
      rw [prevDay]
      dsimp only
      rw [if_neg (by omega), if_neg (by omega)]
      have h31 : daysInMonth ty 12 = 31 := by
        simp [daysInMonth]
      rw [hm12, h31]
      have harr : ty + 1 - 1 = ty := by omega
      rw [harr]
  refine ⟨hend, ?_⟩
  intro ds d hd
  obtain ⟨dy, dm, dd⟩ := d
  obtain ⟨hdm1, hdm2, hdd1, hdd2⟩ := hd
  dsimp only at hdm1 hdm2 hdd1 hdd2
  rw [filterByThisMonth, List.mem_filter, hend]
  rw [this_month_start, month_end]
  dsimp only
  simp only [Bool.and_eq_true, decide_eq_true_eq]
  rw [ymdLe, ymdLe]
  dsimp only
  constructor
  · rintro ⟨hds, hlo, hhi⟩
    exact ⟨hds, by omega, by omega⟩
  · rintro ⟨hds, hy, hm⟩
    rw [hy, hm] at hdd2
    exact ⟨hds, by omega, by omega⟩

/-- Closed instance of C5 at `today = 2024-02-15`: the month window ends on
the leap day 2024-02-29 as the calendar rules dictate. -/
theorem this_month_window_spec_witness :
    this_month_end ⟨2024, 2, 15⟩ = month_end ⟨2024, 2, 15⟩ ∧
    this_month_end ⟨2024, 2, 15⟩ = ⟨2024, 2, 29⟩ :=
  ⟨(this_month_window_spec ⟨2024, 2, 15⟩ (by decide)).1, by decide⟩
